import Mathlib

/-!
Shallow embedding of src/app/expansion_protocol.h (Flipper Expansion
Protocol parser reference implementation).

The C code overlays a packed tagged union directly onto a byte buffer and
both the encoder and the decoder treat a frame as raw memory, so a frame is
modelled here as its memory image: a function from byte offset to stored
value.  A read of a uint8_t field is modelled as the stored value modulo
256, and every byte written by the receive callback is stored modulo 256,
which matches the machine where every memory cell holds a value below 256.
-/

namespace ExpansionProtocol

/-- Memory image of an ExpansionFrame: byte offset to byte value. -/
abbrev Buf : Type := Nat → Nat

/-- EXPANSION_MAX_DATA_SIZE (64U). -/
def EXPANSION_MAX_DATA_SIZE : Nat := 64

/-- sizeof(ExpansionFrameHeader): a single uint8_t type tag. -/
def headerSize : Nat := 1

/-- sizeof(ExpansionFrameStatus): one uint8_t error code. -/
def statusSize : Nat := 1

/-- sizeof(ExpansionFrameBaudRate): one uint32_t baud rate. -/
def baudRateSize : Nat := 4

/-- sizeof(ExpansionFrameControl): one uint8_t command. -/
def controlSize : Nat := 1

/-- sizeof(ExpansionFrameData::size): the one-byte length field. -/
def dataSizeFieldSize : Nat := 1

/-- sizeof(ExpansionFrame): header plus the largest union member
(ExpansionFrameData, which is 1 + 64 bytes under pragma pack(1)). -/
def frameSize : Nat := headerSize + dataSizeFieldSize + EXPANSION_MAX_DATA_SIZE

/-- SIZE_MAX of the 32-bit target (the sentinel value only needs to be
distinguishable from every genuine remaining-size value, all below 2^9). -/
def SIZE_MAX : Nat := 4294967295

/-- Read of frame->header.type (a uint8_t at offset 0). -/
def frameType (f : Buf) : Nat := f 0 % 256

/-- Read of frame->content.data.size (a uint8_t at offset 1). -/
def dataLen (f : Buf) : Nat := f 1 % 256

/-- Read of frame->content.status.error (a uint8_t at offset 1). -/
def statusError (f : Buf) : Nat := f 1 % 256

/-- Read of frame->content.control.command (a uint8_t at offset 1). -/
def controlCommand (f : Buf) : Nat := f 1 % 256

/-- Read of frame->content.baud_rate.baud (a uint32_t at offset 1,
little-endian, as laid out on the little-endian target). -/
def baudValue (f : Buf) : Nat :=
  f 1 % 256 + 256 * (f 2 % 256) + 65536 * (f 3 % 256) + 16777216 * (f 4 % 256)

/-- expansion_frame_get_encoded_size: switch on frame->header.type. -/
def expansion_frame_get_encoded_size (f : Buf) : Nat :=
  if frameType f = 1 then headerSize
  else if frameType f = 2 then headerSize + statusSize
  else if frameType f = 3 then headerSize + baudRateSize
  else if frameType f = 4 then headerSize + controlSize
  else if frameType f = 5 then headerSize + dataSizeFieldSize + dataLen f
  else 0

/-- The final line of expansion_frame_get_remaining_size:
content_size > received_content_size ? content_size - received_content_size : 0. -/
def remFromContent (content_size received_content_size : Nat) : Nat :=
  if content_size > received_content_size then content_size - received_content_size else 0

/-- expansion_frame_get_remaining_size: header check, then a switch on the
tag computing content_size (with the Data case branching on whether the
length field has been received), default returning SIZE_MAX. -/
def expansion_frame_get_remaining_size (f : Buf) (received_size : Nat) : Nat :=
  if received_size < headerSize then headerSize
  else if frameType f = 1 then remFromContent 0 (received_size - headerSize)
  else if frameType f = 2 then remFromContent statusSize (received_size - headerSize)
  else if frameType f = 3 then remFromContent baudRateSize (received_size - headerSize)
  else if frameType f = 4 then remFromContent controlSize (received_size - headerSize)
  else if frameType f = 5 then
    remFromContent
      (if received_size - headerSize < dataSizeFieldSize then dataSizeFieldSize
       else dataSizeFieldSize + dataLen f)
      (received_size - headerSize)
  else SIZE_MAX

/-- The five known frame type tags. -/
def knownTags : List Nat := [1, 2, 3, 4, 5]

/-- Case analysis of expansion_frame_get_encoded_size over the tag. -/
theorem encoded_size_cases (f : Buf) :
    (frameType f = 1 → expansion_frame_get_encoded_size f = 1) ∧
    (frameType f = 2 → expansion_frame_get_encoded_size f = 2) ∧
    (frameType f = 3 → expansion_frame_get_encoded_size f = 5) ∧
    (frameType f = 4 → expansion_frame_get_encoded_size f = 2) ∧
    (frameType f = 5 → expansion_frame_get_encoded_size f = 2 + dataLen f) ∧
    (frameType f ∉ knownTags → expansion_frame_get_encoded_size f = 0) := by
  refine ⟨?_, ?_, ?_, ?_, ?_, ?_⟩ <;> intro h
  · simp [expansion_frame_get_encoded_size, headerSize, h]
  · simp [expansion_frame_get_encoded_size, headerSize, statusSize, h]
  · simp [expansion_frame_get_encoded_size, headerSize, baudRateSize, h]
  · simp [expansion_frame_get_encoded_size, headerSize, controlSize, h]
  · simp [expansion_frame_get_encoded_size, headerSize, dataSizeFieldSize, h]
  · simp only [knownTags, List.mem_cons, List.not_mem_nil, or_false, not_or] at h
    simp [expansion_frame_get_encoded_size, h.1, h.2.1, h.2.2.1, h.2.2.2.1, h.2.2.2.2]

/-- C4: encoded size is 1 for Heartbeat, 2 for Status, 5 for BaudRate,
2 for Control, 2 + declared length for Data, and 0 for unknown tags. -/
theorem encoded_size_by_tag (f : Buf) :
    (frameType f = 1 → expansion_frame_get_encoded_size f = 1) ∧
    (frameType f = 2 → expansion_frame_get_encoded_size f = 2) ∧
    (frameType f = 3 → expansion_frame_get_encoded_size f = 5) ∧
    (frameType f = 4 → expansion_frame_get_encoded_size f = 2) ∧
    (frameType f = 5 → expansion_frame_get_encoded_size f = 2 + dataLen f) ∧
    (frameType f ∉ knownTags → expansion_frame_get_encoded_size f = 0) :=
  encoded_size_cases f

/-- C4 witness at a concrete Data frame of declared length 7. -/
theorem encoded_size_by_tag_witness :
    expansion_frame_get_encoded_size (fun i => if i = 0 then 5 else 7) =
      2 + dataLen (fun i => if i = 0 then 5 else 7) := by
  have h := (encoded_size_by_tag (fun i => if i = 0 then 5 else 7)).2.2.2.2.1
  exact h (by decide)

/-- At exactly the encoded size, the remaining size of a known-tag frame
is 0. -/
theorem rem_at_encoded_size (f : Buf) (h : frameType f ∈ knownTags) :
    expansion_frame_get_remaining_size f (expansion_frame_get_encoded_size f) = 0 := by
  simp only [knownTags, List.mem_cons, List.not_mem_nil, or_false] at h
  rcases h with h | h | h | h | h <;>
    simp [expansion_frame_get_remaining_size, expansion_frame_get_encoded_size,
      remFromContent, headerSize, statusSize, baudRateSize, controlSize,
      dataSizeFieldSize, h]

/-- C6: for a frame with a known tag, the remaining size at exactly the
encoded size is 0. -/
theorem remaining_zero_at_encoded_size (f : Buf) (h : frameType f ∈ knownTags) :
    expansion_frame_get_remaining_size f (expansion_frame_get_encoded_size f) = 0 :=
  rem_at_encoded_size f h

/-- C6 witness at a concrete BaudRate frame. -/
theorem remaining_zero_at_encoded_size_witness :
    expansion_frame_get_remaining_size (fun _ => 3)
      (expansion_frame_get_encoded_size (fun _ => 3)) = 0 :=
  remaining_zero_at_encoded_size (fun _ => 3) (by decide)

/-- Modelled from the spec: the content requirement of section 4.2 — the
variant's fixed content byte count for fixed-size variants, and for the Data
variant the length-field size while the length field has not yet been
received, then length-field size plus the declared length once it has. -/
def specContentRequirement (f : Buf) (received_content_size : Nat) : Nat :=
  if frameType f = 1 then 0
  else if frameType f = 2 then 1
  else if frameType f = 3 then 4
  else if frameType f = 4 then 1
  else if frameType f = 5 then
    (if received_content_size < 1 then 1 else 1 + dataLen f)
  else 0

/-- C3: below the header size the remaining size is exactly the header
size; at or past it, for a known tag, the remaining size is
max(content_requirement - content_received, 0) with the content requirement
of the spec (0 / 1 / 4 / 1 fixed, and the two-phase value for Data). -/
theorem remaining_size_formula (f : Buf) (n : Nat) :
    (n < 1 → expansion_frame_get_remaining_size f n = 1) ∧
    (1 ≤ n → frameType f ∈ knownTags →
      (expansion_frame_get_remaining_size f n : Int) =
        max ((specContentRequirement f (n - 1) : Int) - ((n : Int) - 1)) 0) := by
  constructor
  · intro h
    simp [expansion_frame_get_remaining_size, headerSize, h]
  · intro hn hk
    simp only [knownTags, List.mem_cons, List.not_mem_nil, or_false] at hk
    have hn1 : ¬ n < 1 := by omega
    rcases hk with h | h | h | h | h <;>
      simp [expansion_frame_get_remaining_size, specContentRequirement,
        remFromContent, headerSize, statusSize, baudRateSize, controlSize,
        dataSizeFieldSize, h, hn1] <;>
      (repeat' split) <;> (push_cast ; omega)

/-- C3 witness at a Data frame whose length field (value 9) has been
received, with 3 bytes received in total. -/
theorem remaining_size_formula_witness :
    (expansion_frame_get_remaining_size (fun i => if i = 0 then 5 else 9) 3 : Int) =
      max ((specContentRequirement (fun i => if i = 0 then 5 else 9) (3 - 1) : Int) -
        ((3 : Int) - 1)) 0 :=
  (remaining_size_formula (fun i => if i = 0 then 5 else 9) 3).2 (by decide) (by decide)

/-- C5 counterexample: for the constant-3 buffer (a true BaudRate frame)
the remaining size at 0 received bytes is 1 but at 1 received byte it is 4,
so remaining size is not monotonically non-increasing in received_size. -/
theorem remaining_size_not_monotone :
    ¬ (expansion_frame_get_remaining_size (fun _ => 3) 1 ≤
        expansion_frame_get_remaining_size (fun _ => 3) 0) := by
  decide

/-- C5 amended: for a frame buffer with a known tag, the remaining size is
monotonically non-increasing in received_size once at least the header has
been received — and, for the Data variant, once the length field has also
been received (at the header-to-content and length-reveal boundaries it can
increase). -/
theorem remaining_size_monotone_after_reveal (f : Buf) (m n : Nat)
    (hk : frameType f ∈ knownTags) (h1 : 1 ≤ m) (hmn : m ≤ n)
    (h5 : frameType f = 5 → 2 ≤ m) :
    expansion_frame_get_remaining_size f n ≤ expansion_frame_get_remaining_size f m := by
  simp only [knownTags, List.mem_cons, List.not_mem_nil, or_false] at hk
  have hm1 : ¬ m < 1 := by omega
  have hn1 : ¬ n < 1 := by omega
  rcases hk with h | h | h | h | h
  case _ | _ | _ | _ =>
    simp [expansion_frame_get_remaining_size, remFromContent, headerSize,
      statusSize, baudRateSize, controlSize, h, hm1, hn1] <;>
    (repeat' split) <;> omega
  · have hm2 := h5 h
    have hmd : ¬ m - 1 < 1 := by omega
    have hnd : ¬ n - 1 < 1 := by omega
    simp [expansion_frame_get_remaining_size, remFromContent, headerSize,
      dataSizeFieldSize, h, hm1, hn1, hmd, hnd] <;>
    (repeat' split) <;> omega

/-- C5 amended witness: a Data frame with declared length 9, between 4 and
6 received bytes. -/
theorem remaining_size_monotone_after_reveal_witness :
    expansion_frame_get_remaining_size (fun i => if i = 0 then 5 else 9) 6 ≤
      expansion_frame_get_remaining_size (fun i => if i = 0 then 5 else 9) 4 :=
  remaining_size_monotone_after_reveal (fun i => if i = 0 then 5 else 9) 4 6
    (by decide) (by decide) (by decide) (fun _ => by decide)

/-- Writing a list of received bytes into the frame memory starting at a
byte offset; each memory cell stores a byte, so values are stored mod 256. -/
def writeBytes (buf : Buf) (off : Nat) (l : List Nat) : Buf :=
  fun i => if off ≤ i ∧ i < off + l.length then l.getD (i - off) 0 % 256 else buf i

theorem writeBytes_before {buf : Buf} {off : Nat} {l : List Nat} {i : Nat}
    (h : i < off) : writeBytes buf off l i = buf i := by
  simp only [writeBytes]
  rw [if_neg]
  omega

theorem writeBytes_after {buf : Buf} {off : Nat} {l : List Nat} {i : Nat}
    (h : off + l.length ≤ i) : writeBytes buf off l i = buf i := by
  simp only [writeBytes]
  rw [if_neg]
  omega

theorem writeBytes_inside {buf : Buf} {off : Nat} {l : List Nat} {i : Nat}
    (h1 : off ≤ i) (h2 : i < off + l.length) :
    writeBytes buf off l i = l.getD (i - off) 0 % 256 := by
  simp only [writeBytes]
  rw [if_pos ⟨h1, h2⟩]

/-- Result of one expansion_frame_decode call: the final frame memory, the
final total_size, the final callback context, the returned boolean, and the
trace of (write offset, requested capacity) pairs passed to the callback. -/
structure DecodeResult (σ : Type) where
  buf : Buf
  total : Nat
  state : σ
  ok : Bool
  requests : List (Nat × Nat)

/-- The while loop of expansion_frame_decode, with an explicit iteration
budget.  The budget is only a technical device: decodeLoopF_stable below
proves that every budget of at least 258 - total_size gives the same
result, so the loop always reaches one of its break statements and the
fallback zero-budget result is unreachable from expansion_frame_decode. -/
def decodeLoopF {σ : Type} (recv : σ → Nat → List Nat × σ) :
    Nat → Buf → Nat → σ → DecodeResult σ
  | 0, buf, total, s => ⟨buf, total, s, false, []⟩
  | fuel + 1, buf, total, s =>
    let remaining := expansion_frame_get_remaining_size buf total
    if remaining = 0 ∨ remaining = SIZE_MAX then
      ⟨buf, total, s, decide (remaining = 0), []⟩
    else
      let rcv := recv s remaining
      if rcv.1.length = 0 then
        ⟨buf, total, rcv.2, decide (remaining = 0), [(total, remaining)]⟩
      else
        let rest :=
          decodeLoopF recv fuel (writeBytes buf total rcv.1) (total + rcv.1.length) rcv.2
        ⟨rest.buf, rest.total, rest.state, rest.ok, (total, remaining) :: rest.requests⟩

/-- Iteration budget sufficient for any run of the decode loop starting at
total_size 0 (any frame needs at most 258 loop iterations; see
decodeLoopF_stable). -/
def decodeFuel : Nat := 258

/-- expansion_frame_decode: run the receive loop on the caller's frame
buffer starting from total_size 0. -/
def expansion_frame_decode {σ : Type} (recv : σ → Nat → List Nat × σ)
    (frame : Buf) (s : σ) : DecodeResult σ :=
  decodeLoopF recv decodeFuel frame 0 s

/-- Result of one expansion_frame_encode call: the returned boolean, the
final callback context, and the byte ranges passed to the send callback. -/
structure EncodeResult (σ : Type) where
  ok : Bool
  state : σ
  sends : List (List Nat)

/-- Consecutive bytes of the frame memory read through a uint8_t pointer:
n bytes starting at a byte offset. -/
def readBytes (f : Buf) : Nat → Nat → List Nat
  | _, 0 => []
  | off, n + 1 => f off % 256 :: readBytes f (off + 1) n

/-- The first encoded_size bytes of the frame memory, as read through a
uint8_t pointer by expansion_frame_encode. -/
def encBytes (f : Buf) (n : Nat) : List Nat :=
  readBytes f 0 n

/-- expansion_frame_encode: compute the encoded size; if nonzero, pass the
encoded byte range to the send callback once and succeed exactly when the
callback reports that full size sent; otherwise fail without sending. -/
def expansion_frame_encode {σ : Type} (send : σ → List Nat → Nat × σ)
    (f : Buf) (s : σ) : EncodeResult σ :=
  let encoded_size := expansion_frame_get_encoded_size f
  if encoded_size ≠ 0 then
    let r := send s (encBytes f encoded_size)
    ⟨decide (r.1 = encoded_size), r.2, [encBytes f encoded_size]⟩
  else
    ⟨false, s, []⟩

/-- In-memory byte sink: appends the sent range to a list and reports the
whole range as sent. -/
def listSink (s : List Nat) (l : List Nat) : Nat × List Nat :=
  (l.length, s ++ l)

/-- In-memory byte source: serves up to the requested capacity from the
front of a list. -/
def listSource (s : List Nat) (cap : Nat) : List Nat × List Nat :=
  (s.take cap, s.drop cap)

theorem decodeLoopF_done {σ : Type} {recv : σ → Nat → List Nat × σ}
    {buf : Buf} {total : Nat} {s : σ} (fuel : Nat)
    (h : expansion_frame_get_remaining_size buf total = 0) :
    decodeLoopF recv (fuel + 1) buf total s = ⟨buf, total, s, true, []⟩ := by
  simp [decodeLoopF, h]

theorem decodeLoopF_sentinel {σ : Type} {recv : σ → Nat → List Nat × σ}
    {buf : Buf} {total : Nat} {s : σ} (fuel : Nat)
    (h : expansion_frame_get_remaining_size buf total = SIZE_MAX) :
    decodeLoopF recv (fuel + 1) buf total s = ⟨buf, total, s, false, []⟩ := by
  have h0 : expansion_frame_get_remaining_size buf total ≠ 0 := by
    rw [h]; decide
  have hM : (SIZE_MAX : Nat) ≠ 0 := by decide
  simp [decodeLoopF, h, h0, hM]

theorem decodeLoopF_stall {σ : Type} {recv : σ → Nat → List Nat × σ}
    {buf : Buf} {total : Nat} {s : σ} (fuel : Nat)
    (h0 : expansion_frame_get_remaining_size buf total ≠ 0)
    (hM : expansion_frame_get_remaining_size buf total ≠ SIZE_MAX)
    (he : (recv s (expansion_frame_get_remaining_size buf total)).1 = []) :
    decodeLoopF recv (fuel + 1) buf total s =
      ⟨buf, total, (recv s (expansion_frame_get_remaining_size buf total)).2, false,
        [(total, expansion_frame_get_remaining_size buf total)]⟩ := by
  simp [decodeLoopF, h0, hM, he]

theorem decodeLoopF_step {σ : Type} {recv : σ → Nat → List Nat × σ}
    {buf : Buf} {total : Nat} {s : σ} (fuel : Nat)
    (h0 : expansion_frame_get_remaining_size buf total ≠ 0)
    (hM : expansion_frame_get_remaining_size buf total ≠ SIZE_MAX)
    (he : (recv s (expansion_frame_get_remaining_size buf total)).1 ≠ []) :
    decodeLoopF recv (fuel + 1) buf total s =
      ⟨(decodeLoopF recv fuel
          (writeBytes buf total (recv s (expansion_frame_get_remaining_size buf total)).1)
          (total + (recv s (expansion_frame_get_remaining_size buf total)).1.length)
          (recv s (expansion_frame_get_remaining_size buf total)).2).buf,
        (decodeLoopF recv fuel
          (writeBytes buf total (recv s (expansion_frame_get_remaining_size buf total)).1)
          (total + (recv s (expansion_frame_get_remaining_size buf total)).1.length)
          (recv s (expansion_frame_get_remaining_size buf total)).2).total,
        (decodeLoopF recv fuel
          (writeBytes buf total (recv s (expansion_frame_get_remaining_size buf total)).1)
          (total + (recv s (expansion_frame_get_remaining_size buf total)).1.length)
          (recv s (expansion_frame_get_remaining_size buf total)).2).state,
        (decodeLoopF recv fuel
          (writeBytes buf total (recv s (expansion_frame_get_remaining_size buf total)).1)
          (total + (recv s (expansion_frame_get_remaining_size buf total)).1.length)
          (recv s (expansion_frame_get_remaining_size buf total)).2).ok,
        (total, expansion_frame_get_remaining_size buf total) ::
          (decodeLoopF recv fuel
            (writeBytes buf total (recv s (expansion_frame_get_remaining_size buf total)).1)
            (total + (recv s (expansion_frame_get_remaining_size buf total)).1.length)
            (recv s (expansion_frame_get_remaining_size buf total)).2).requests⟩ := by
  have hl : (recv s (expansion_frame_get_remaining_size buf total)).1.length ≠ 0 := by
    simpa using he
  simp [decodeLoopF, h0, hM, hl]

/-- Whenever the remaining size is neither 0 nor the SIZE_MAX sentinel (the
loop's two break conditions), the received total is at most 256 and the
requested size is at most 256. -/
theorem remaining_bound (f : Buf) (t : Nat)
    (h0 : expansion_frame_get_remaining_size f t ≠ 0)
    (hM : expansion_frame_get_remaining_size f t ≠ SIZE_MAX) :
    t ≤ 256 ∧ expansion_frame_get_remaining_size f t ≤ 256 := by
  have hd : dataLen f < 256 := by
    show f 1 % 256 < 256
    omega
  simp only [expansion_frame_get_remaining_size, remFromContent, headerSize,
    statusSize, baudRateSize, controlSize, dataSizeFieldSize, SIZE_MAX] at h0 hM ⊢
  repeat' split at h0
  all_goals simp_all
  all_goals omega

/-- The decode loop's result does not depend on the iteration budget once
the budget covers 258 - total_size iterations: the loop always reaches a
break.  This is the termination argument for the while(true) loop. -/
theorem decodeLoopF_stable {σ : Type} (recv : σ → Nat → List Nat × σ) :
    ∀ fuel fuel2 buf total (s : σ), 258 - total ≤ fuel + 1 → 258 - total ≤ fuel2 + 1 →
      decodeLoopF recv (fuel + 1) buf total s = decodeLoopF recv (fuel2 + 1) buf total s := by
  intro fuel
  induction fuel with
  | zero =>
    intro fuel2 buf total s hf hf2
    by_cases h0 : expansion_frame_get_remaining_size buf total = 0
    · rw [decodeLoopF_done 0 h0, decodeLoopF_done fuel2 h0]
    by_cases hM : expansion_frame_get_remaining_size buf total = SIZE_MAX
    · rw [decodeLoopF_sentinel 0 hM, decodeLoopF_sentinel fuel2 hM]
    exact absurd (remaining_bound buf total h0 hM).1 (by omega)
  | succ fuel ih =>
    intro fuel2 buf total s hf hf2
    by_cases h0 : expansion_frame_get_remaining_size buf total = 0
    · rw [decodeLoopF_done _ h0, decodeLoopF_done fuel2 h0]
    by_cases hM : expansion_frame_get_remaining_size buf total = SIZE_MAX
    · rw [decodeLoopF_sentinel _ hM, decodeLoopF_sentinel fuel2 hM]
    have ht : total ≤ 256 := (remaining_bound buf total h0 hM).1
    obtain ⟨fuel2x, rfl⟩ : ∃ k, fuel2 = k + 1 := ⟨fuel2 - 1, by omega⟩
    by_cases he : (recv s (expansion_frame_get_remaining_size buf total)).1 = []
    · rw [decodeLoopF_stall _ h0 hM he, decodeLoopF_stall (fuel2x + 1) h0 hM he]
    rw [decodeLoopF_step _ h0 hM he, decodeLoopF_step (fuel2x + 1) h0 hM he]
    have hl : 0 < (recv s (expansion_frame_get_remaining_size buf total)).1.length :=
      List.length_pos.mpr he
    rw [ih fuel2x _ _ _ (by omega) (by omega)]

/-- C8: a receive callback that always delivers zero bytes makes decode
return false after exactly one callback invocation (at offset 0 requesting
the 1-byte header). -/
theorem decode_zero_callback {σ : Type} (recv : σ → Nat → List Nat × σ)
    (frame : Buf) (s : σ) (hz : ∀ s' n, (recv s' n).1 = []) :
    (expansion_frame_decode recv frame s).ok = false ∧
      (expansion_frame_decode recv frame s).requests.length = 1 := by
  have h1 : expansion_frame_get_remaining_size frame 0 = 1 := rfl
  have h0 : expansion_frame_get_remaining_size frame 0 ≠ 0 := by rw [h1]; decide
  have hM : expansion_frame_get_remaining_size frame 0 ≠ SIZE_MAX := by rw [h1]; decide
  unfold expansion_frame_decode decodeFuel
  rw [show (258 : Nat) = 257 + 1 from rfl, decodeLoopF_stall 257 h0 hM (hz _ _)]
  exact ⟨rfl, rfl⟩

/-- C8 witness: the constant-empty source on the all-zero frame buffer. -/
theorem decode_zero_callback_witness :
    (expansion_frame_decode (fun (s : Unit) (_ : Nat) => (([] : List Nat), s))
        (fun _ => 0) ()).ok = false ∧
      (expansion_frame_decode (fun (s : Unit) (_ : Nat) => (([] : List Nat), s))
        (fun _ => 0) ()).requests.length = 1 :=
  decode_zero_callback _ _ _ (fun _ _ => rfl)

/-- C7: with at least the header byte received, a tag outside 1..5 makes
the remaining size the SIZE_MAX sentinel; and a stream whose first
delivered byte is such a tag makes decode return false after exactly one
callback invocation, rather than looping. -/
theorem decode_unknown_tag {σ : Type} (recv : σ → Nat → List Nat × σ)
    (frame : Buf) (s : σ) :
    (∀ (g : Buf) (t : Nat), 1 ≤ t → frameType g ∉ knownTags →
        expansion_frame_get_remaining_size g t = SIZE_MAX) ∧
    ((recv s 1).1 ≠ [] → (recv s 1).1.getD 0 0 % 256 ∉ knownTags →
      (expansion_frame_decode recv frame s).ok = false ∧
        (expansion_frame_decode recv frame s).requests = [(0, 1)]) := by
  have hsent : ∀ (g : Buf) (t : Nat), 1 ≤ t → frameType g ∉ knownTags →
      expansion_frame_get_remaining_size g t = SIZE_MAX := by
    intro g t ht hg
    simp only [knownTags, List.mem_cons, List.not_mem_nil, or_false, not_or] at hg
    have ht1 : ¬ t < 1 := by omega
    simp [expansion_frame_get_remaining_size, headerSize, ht1,
      hg.1, hg.2.1, hg.2.2.1, hg.2.2.2.1, hg.2.2.2.2]
  refine ⟨hsent, fun hne hbad => ?_⟩
  have h1 : expansion_frame_get_remaining_size frame 0 = 1 := rfl
  have h0 : expansion_frame_get_remaining_size frame 0 ≠ 0 := by rw [h1]; decide
  have hM : expansion_frame_get_remaining_size frame 0 ≠ SIZE_MAX := by rw [h1]; decide
  have hne1 : (recv s (expansion_frame_get_remaining_size frame 0)).1 ≠ [] := by
    rw [h1]; exact hne
  unfold expansion_frame_decode decodeFuel
  rw [show (258 : Nat) = 257 + 1 from rfl, decodeLoopF_step 257 h0 hM hne1]
  have hlen : 0 < (recv s (expansion_frame_get_remaining_size frame 0)).1.length := by
    rw [h1]
    exact List.length_pos.mpr hne
  have htag : frameType (writeBytes frame 0 (recv s (expansion_frame_get_remaining_size frame 0)).1)
      ∉ knownTags := by
    rw [h1]
    have hw : writeBytes frame 0 (recv s 1).1 0 = (recv s 1).1.getD 0 0 % 256 :=
      writeBytes_inside (Nat.le_refl 0) (by rw [h1] at hlen; omega)
    have hmm : (recv s 1).1.getD 0 0 % 256 % 256 = (recv s 1).1.getD 0 0 % 256 := by omega
    simpa [frameType, hw, hmm] using hbad
  have hMnext := hsent _ (0 + (recv s (expansion_frame_get_remaining_size frame 0)).1.length)
    (by omega) htag
  rw [show (257 : Nat) = 256 + 1 from rfl, decodeLoopF_sentinel 256 hMnext]
  simp [h1]

/-- C7 witness: a source delivering the single byte 0 (tag 0). -/
theorem decode_unknown_tag_witness :
    (expansion_frame_decode listSource (fun _ => 0) [0]).ok = false ∧
      (expansion_frame_decode listSource (fun _ => 0) [0]).requests = [(0, 1)] :=
  (decode_unknown_tag listSource (fun _ => 0) [0]).2 (by decide) (by decide)

/-- A remaining size of 0 is only computed for a known tag (the header
check returns 1 and the default switch case returns SIZE_MAX). -/
theorem remaining_zero_known (f : Buf) (t : Nat)
    (h : expansion_frame_get_remaining_size f t = 0) : frameType f ∈ knownTags := by
  by_cases h1 : frameType f = 1
  · simp [knownTags, h1]
  by_cases h2 : frameType f = 2
  · simp [knownTags, h2]
  by_cases h3 : frameType f = 3
  · simp [knownTags, h3]
  by_cases h4 : frameType f = 4
  · simp [knownTags, h4]
  by_cases h5 : frameType f = 5
  · simp [knownTags, h5]
  exfalso
  by_cases ht : t < 1
  · simp [expansion_frame_get_remaining_size, headerSize, ht] at h
  · simp [expansion_frame_get_remaining_size, headerSize, SIZE_MAX, ht,
      h1, h2, h3, h4, h5] at h

/-- Any successful run of the decode loop ends with a frame whose tag is
one of the five known values. -/
theorem decodeLoopF_ok_known {σ : Type} (recv : σ → Nat → List Nat × σ) :
    ∀ fuel buf total (s : σ), (decodeLoopF recv fuel buf total s).ok = true →
      frameType (decodeLoopF recv fuel buf total s).buf ∈ knownTags := by
  intro fuel
  induction fuel with
  | zero =>
    intro buf total s h
    simp [decodeLoopF] at h
  | succ fuel ih =>
    intro buf total s h
    by_cases h0 : expansion_frame_get_remaining_size buf total = 0
    · rw [decodeLoopF_done fuel h0]
      exact remaining_zero_known buf total h0
    by_cases hM : expansion_frame_get_remaining_size buf total = SIZE_MAX
    · rw [decodeLoopF_sentinel fuel hM] at h
      simp at h
    by_cases he : (recv s (expansion_frame_get_remaining_size buf total)).1 = []
    · rw [decodeLoopF_stall fuel h0 hM he] at h
      simp at h
    rw [decodeLoopF_step fuel h0 hM he] at h ⊢
    exact ih _ _ _ h

/-- C10: whenever expansion_frame_decode reports success, the tag byte of
the frame it hands back is one of the five known frame-type values. -/
theorem decode_ok_known_tag {σ : Type} (recv : σ → Nat → List Nat × σ)
    (frame : Buf) (s : σ)
    (h : (expansion_frame_decode recv frame s).ok = true) :
    frameType (expansion_frame_decode recv frame s).buf ∈ knownTags :=
  decodeLoopF_ok_known recv decodeFuel frame 0 s h

/-- C10 witness: a one-byte Heartbeat stream decodes successfully, and the
theorem yields its tag's membership in the known set. -/
theorem decode_ok_known_tag_witness :
    frameType (expansion_frame_decode listSource (fun _ => 0) [1]).buf ∈ knownTags :=
  decode_ok_known_tag listSource (fun _ => 0) [1] (by decide)

/-- C9: encode fails without invoking the send callback when the encoded
size is 0 (unknown tag); otherwise it invokes the callback exactly once
with the full encoded byte range and returns true exactly when the callback
reports that full size as sent. -/
theorem encode_send_once {σ : Type} (send : σ → List Nat → Nat × σ)
    (f : Buf) (s : σ) :
    (expansion_frame_get_encoded_size f = 0 →
      (expansion_frame_encode send f s).ok = false ∧
        (expansion_frame_encode send f s).sends = []) ∧
    (expansion_frame_get_encoded_size f ≠ 0 →
      (expansion_frame_encode send f s).sends =
          [encBytes f (expansion_frame_get_encoded_size f)] ∧
        ((expansion_frame_encode send f s).ok = true ↔
          (send s (encBytes f (expansion_frame_get_encoded_size f))).1 =
            expansion_frame_get_encoded_size f)) := by
  constructor
  · intro h
    simp [expansion_frame_encode, h]
  · intro h
    simp [expansion_frame_encode, h]

/-- C9 witness: a Status frame sent through the in-memory sink. -/
theorem encode_send_once_witness :
    (expansion_frame_encode listSink (fun _ => 2) ([] : List Nat)).sends =
        [encBytes (fun _ => 2) (expansion_frame_get_encoded_size (fun _ => 2))] ∧
      ((expansion_frame_encode listSink (fun _ => 2) ([] : List Nat)).ok = true ↔
        (listSink [] (encBytes (fun _ => 2)
            (expansion_frame_get_encoded_size (fun _ => 2)))).1 =
          expansion_frame_get_encoded_size (fun _ => 2)) :=
  (encode_send_once listSink (fun _ => 2) []).2 (by decide)

/-- C2 is violated by the code: on the adversarial stream [5, 255] (a Data
frame declaring length 255 > 64), the third callback invocation asks for
255 bytes at write offset 2, i.e. 257 bytes of frame buffer, exceeding
sizeof(ExpansionFrame) = 66.  A callback honouring its contract (writing up
to the requested capacity) would write past the caller's frame buffer. -/
theorem decode_oversized_request :
    (2, 255) ∈ (expansion_frame_decode listSource (fun _ => 0) [5, 255]).requests ∧
      frameSize < 2 + 255 := by
  decide

theorem readBytes_length (f : Buf) : ∀ n off, (readBytes f off n).length = n := by
  intro n
  induction n with
  | zero => intro off; rfl
  | succ n ih =>
    intro off
    simp [readBytes, ih]

theorem readBytes_getD (f : Buf) :
    ∀ n off i, i < n → (readBytes f off n).getD i 0 = f (off + i) % 256 := by
  intro n
  induction n with
  | zero => intro off i hi; omega
  | succ n ih =>
    intro off i hi
    cases i with
    | zero => simp [readBytes]
    | succ i =>
      have h := ih (off + 1) i (by omega)
      have he : off + 1 + i = off + (i + 1) := by omega
      rw [he] at h
      simpa [readBytes, List.getD_cons_succ] using h

theorem readBytes_take (f : Buf) :
    ∀ n off m, m ≤ n → (readBytes f off n).take m = readBytes f off m := by
  intro n
  induction n with
  | zero =>
    intro off m hm
    interval_cases m
    rfl
  | succ n ih =>
    intro off m hm
    cases m with
    | zero => rfl
    | succ m => simp [readBytes, List.take_succ_cons, ih (off + 1) m (by omega)]

theorem readBytes_drop (f : Buf) :
    ∀ n off m, m ≤ n → (readBytes f off n).drop m = readBytes f (off + m) (n - m) := by
  intro n
  induction n with
  | zero =>
    intro off m hm
    interval_cases m
    rfl
  | succ n ih =>
    intro off m hm
    cases m with
    | zero => rfl
    | succ m =>
      have h := ih (off + 1) m (by omega)
      have he : off + 1 + m = off + (m + 1) := by omega
      have he2 : n - m = n + 1 - (m + 1) := by omega
      rw [he, he2] at h
      simpa [readBytes, List.drop_succ_cons] using h

theorem readBytes_ne_nil (f : Buf) (off n : Nat) (h : 1 ≤ n) :
    readBytes f off n ≠ [] := by
  cases n with
  | zero => omega
  | succ n => simp [readBytes]

/-- A well-formed frame value: byte-valued memory cells, a known tag, and a
Data length within EXPANSION_MAX_DATA_SIZE. -/
def WellFormed (f : Buf) : Prop :=
  (∀ i, i < frameSize → f i < 256) ∧ frameType f ∈ knownTags ∧
    (frameType f = 5 → dataLen f ≤ EXPANSION_MAX_DATA_SIZE)

/-- Two frame memories describe the same frame value: equal tags and, for
the tag in force, equal semantically meaningful content fields (Status
error byte, BaudRate 32-bit value, Control command byte, Data length and
the first length payload bytes). -/
def frameEquiv (f g : Buf) : Prop :=
  frameType g = frameType f ∧
  (frameType f = 2 → statusError g = statusError f) ∧
  (frameType f = 3 → baudValue g = baudValue f) ∧
  (frameType f = 4 → controlCommand g = controlCommand f) ∧
  (frameType f = 5 → dataLen g = dataLen f ∧
    ∀ i, i < dataLen f → g (2 + i) % 256 = f (2 + i) % 256)

/-- The remaining size depends on the frame memory only through the tag
byte and, for a Data frame, the length-field byte. -/
theorem rem_congr (f g : Buf) (h0 : frameType g = frameType f)
    (h1 : frameType f = 5 → dataLen g = dataLen f) (t : Nat) :
    expansion_frame_get_remaining_size g t = expansion_frame_get_remaining_size f t := by
  by_cases h5 : frameType f = 5
  · simp only [expansion_frame_get_remaining_size, h0, h1 h5]
  · simp only [expansion_frame_get_remaining_size, h0, h5, if_false]

/-- For a well-formed frame the encoded size is between 1 and
sizeof(ExpansionFrame). -/
theorem encoded_size_bounds (f : Buf) (hwf : WellFormed f) :
    1 ≤ expansion_frame_get_encoded_size f ∧
      expansion_frame_get_encoded_size f ≤ frameSize := by
  obtain ⟨hb, hk, hd⟩ := hwf
  have hc := encoded_size_cases f
  simp only [knownTags, List.mem_cons, List.not_mem_nil, or_false] at hk
  simp only [frameSize, headerSize, dataSizeFieldSize, EXPANSION_MAX_DATA_SIZE]
  rcases hk with h | h | h | h | h
  · rw [hc.1 h]; omega
  · rw [hc.2.1 h]; omega
  · rw [hc.2.2.1 h]; omega
  · rw [hc.2.2.2.1 h]; omega
  · rw [hc.2.2.2.2.1 h]
    have := hd h
    simp only [EXPANSION_MAX_DATA_SIZE] at this
    omega

/-- Progress of the decode loop before completion: while fewer bytes than
the encoded size have been received and the received prefix agrees with the
true frame, the remaining size is positive, fits in the bytes still to
come, and is not the sentinel. -/
theorem rem_progress (f : Buf) (hwf : WellFormed f) (buf : Buf) (total : Nat)
    (hag : ∀ i, i < total → buf i = f i)
    (hlt : total < expansion_frame_get_encoded_size f) :
    1 ≤ expansion_frame_get_remaining_size buf total ∧
      expansion_frame_get_remaining_size buf total ≤
        expansion_frame_get_encoded_size f - total ∧
      expansion_frame_get_remaining_size buf total ≠ SIZE_MAX := by
  obtain ⟨hb, hk, hd⟩ := hwf
  have hc := encoded_size_cases f
  rcases Nat.eq_zero_or_pos total with ht0 | ht1
  · subst ht0
    have h1 : expansion_frame_get_remaining_size buf 0 = 1 := rfl
    rw [h1]
    refine ⟨le_refl 1, by omega, by decide⟩
  · have hb0 : buf 0 = f 0 := hag 0 (by omega)
    have hty : frameType buf = frameType f := by simp [frameType, hb0]
    have htn1 : ¬ total < 1 := by omega
    simp only [knownTags, List.mem_cons, List.not_mem_nil, or_false] at hk
    rcases hk with h | h | h | h | h
    · rw [hc.1 h] at hlt; omega
    · rw [hc.2.1 h] at hlt ⊢
      have htot : total = 1 := by omega
      subst htot
      have h1 : expansion_frame_get_remaining_size buf 1 = 1 := by
        simp [expansion_frame_get_remaining_size, remFromContent, headerSize,
          statusSize, hty, h]
      rw [h1]
      exact ⟨le_refl 1, by omega, by decide⟩
    · rw [hc.2.2.1 h] at hlt ⊢
      have h1 : expansion_frame_get_remaining_size buf total =
          remFromContent 4 (total - 1) := by
        simp [expansion_frame_get_remaining_size, headerSize, baudRateSize,
          hty, h, htn1]
      rw [h1]
      simp only [remFromContent, SIZE_MAX]
      refine ⟨?_, ?_, ?_⟩ <;> split <;> omega
    · rw [hc.2.2.2.1 h] at hlt ⊢
      have htot : total = 1 := by omega
      subst htot
      have h1 : expansion_frame_get_remaining_size buf 1 = 1 := by
        simp [expansion_frame_get_remaining_size, remFromContent, headerSize,
          controlSize, hty, h]
      rw [h1]
      exact ⟨le_refl 1, by omega, by decide⟩
    · rw [hc.2.2.2.2.1 h] at hlt ⊢
      rcases Nat.lt_or_ge total 2 with ht2 | ht2
      · have htot : total = 1 := by omega
        subst htot
        have h1 : expansion_frame_get_remaining_size buf 1 = 1 := by
          simp [expansion_frame_get_remaining_size, remFromContent, headerSize,
            dataSizeFieldSize, hty, h]
        rw [h1]
        exact ⟨le_refl 1, by omega, by decide⟩
      · have hb1 : buf 1 = f 1 := hag 1 (by omega)
        have hdl : dataLen buf = dataLen f := by simp [dataLen, hb1]
        have hnd : ¬ total - 1 < 1 := by omega
        have h1 : expansion_frame_get_remaining_size buf total =
            remFromContent (1 + dataLen f) (total - 1) := by
          simp [expansion_frame_get_remaining_size, headerSize, dataSizeFieldSize,
            hty, h, htn1, hnd, hdl]
        have hdlt : dataLen f < 256 := by
          show f 1 % 256 < 256
          omega
        rw [h1]
        simp only [remFromContent, SIZE_MAX]
        refine ⟨?_, ?_, ?_⟩ <;> split <;> omega

/-- Writing the next chunk of true frame bytes extends the prefix
agreement between the receiving frame buffer and the true frame. -/
theorem agree_writeBytes (f buf : Buf) (total r : Nat)
    (hag : ∀ i, i < total → buf i = f i)
    (hbytes : ∀ i, i < total + r → f i < 256) :
    ∀ i, i < total + r → writeBytes buf total (readBytes f total r) i = f i := by
  intro i hi
  rcases Nat.lt_or_ge i total with hc | hc
  · rw [writeBytes_before hc]
    exact hag i hc
  · have hlen : (readBytes f total r).length = r := readBytes_length f r total
    have h2 : i < total + (readBytes f total r).length := by rw [hlen]; omega
    rw [writeBytes_inside hc h2, readBytes_getD f r total (i - total) (by omega)]
    have he : total + (i - total) = i := by omega
    rw [he]
    have := hbytes i hi
    omega

/-- Driving the decode loop with the in-memory source over exactly the
encoded bytes of a well-formed frame always succeeds and reproduces the
frame's bytes over its entire encoded size. -/
theorem decodeLoopF_drive (f : Buf) (hwf : WellFormed f) :
    ∀ fuel buf total, total ≤ expansion_frame_get_encoded_size f →
      (∀ i, i < total → buf i = f i) →
      expansion_frame_get_encoded_size f - total < fuel →
      (decodeLoopF listSource fuel buf total
          (readBytes f total (expansion_frame_get_encoded_size f - total))).ok = true ∧
      ∀ i, i < expansion_frame_get_encoded_size f →
        (decodeLoopF listSource fuel buf total
            (readBytes f total (expansion_frame_get_encoded_size f - total))).buf i = f i := by
  intro fuel
  induction fuel with
  | zero =>
    intro buf total hle hag hfu
    omega
  | succ fuel ih =>
    intro buf total hle hag hfu
    rcases Nat.eq_or_lt_of_le hle with htn | hlt
    · have hn1 := (encoded_size_bounds f hwf).1
      have hb0 : buf 0 = f 0 := hag 0 (by omega)
      have hty : frameType buf = frameType f := by simp [frameType, hb0]
      have hdl : frameType f = 5 → dataLen buf = dataLen f := by
        intro h5
        have hn2 : expansion_frame_get_encoded_size f = 2 + dataLen f :=
          (encoded_size_cases f).2.2.2.2.1 h5
        have hb1 : buf 1 = f 1 := hag 1 (by omega)
        simp [dataLen, hb1]
      have h0 : expansion_frame_get_remaining_size buf total = 0 := by
        rw [rem_congr f buf hty hdl total, htn]
        exact rem_at_encoded_size f hwf.2.1
      rw [decodeLoopF_done fuel h0]
      exact ⟨rfl, fun i hi => hag i (by omega)⟩
    · obtain ⟨hr1, hr2, hrM⟩ := rem_progress f hwf buf total hag hlt
      have h0 : expansion_frame_get_remaining_size buf total ≠ 0 := by omega
      have hsrc : listSource
          (readBytes f total (expansion_frame_get_encoded_size f - total))
          (expansion_frame_get_remaining_size buf total) =
          (readBytes f total (expansion_frame_get_remaining_size buf total),
            readBytes f (total + expansion_frame_get_remaining_size buf total)
              (expansion_frame_get_encoded_size f -
                (total + expansion_frame_get_remaining_size buf total))) := by
        have htake := readBytes_take f (expansion_frame_get_encoded_size f - total)
          total (expansion_frame_get_remaining_size buf total) hr2
        have hdrop := readBytes_drop f (expansion_frame_get_encoded_size f - total)
          total (expansion_frame_get_remaining_size buf total) hr2
        have he : expansion_frame_get_encoded_size f - total -
            expansion_frame_get_remaining_size buf total =
            expansion_frame_get_encoded_size f -
              (total + expansion_frame_get_remaining_size buf total) := by
          omega
        rw [he] at hdrop
        simp [listSource, htake, hdrop]
      have hne : (listSource
          (readBytes f total (expansion_frame_get_encoded_size f - total))
          (expansion_frame_get_remaining_size buf total)).1 ≠ [] := by
        rw [hsrc]
        exact readBytes_ne_nil f total _ hr1
      rw [decodeLoopF_step fuel h0 hrM hne]
      simp only [hsrc, readBytes_length]
      have hfs : expansion_frame_get_encoded_size f ≤ frameSize :=
        (encoded_size_bounds f hwf).2
      have hfs66 : frameSize = 66 := rfl
      have hagx := agree_writeBytes f buf total
        (expansion_frame_get_remaining_size buf total) hag
        (fun i hi => hwf.1 i (by omega))
      have hrec := ih (writeBytes buf total
          (readBytes f total (expansion_frame_get_remaining_size buf total)))
        (total + expansion_frame_get_remaining_size buf total)
        (by omega) hagx (by omega)
      exact ⟨hrec.1, fun i hi => hrec.2 i hi⟩

/-- A buffer agreeing with a well-formed frame on its whole encoded byte
range describes the same frame value. -/
theorem frameEquiv_of_agree (f g : Buf) (hwf : WellFormed f)
    (hag : ∀ i, i < expansion_frame_get_encoded_size f → g i = f i) :
    frameEquiv f g := by
  have hc := encoded_size_cases f
  have hn1 := (encoded_size_bounds f hwf).1
  have hb0 : g 0 = f 0 := hag 0 (by omega)
  have hty : frameType g = frameType f := by simp [frameType, hb0]
  refine ⟨hty, ?_, ?_, ?_, ?_⟩
  · intro h2
    have hn : expansion_frame_get_encoded_size f = 2 := hc.2.1 h2
    have hb1 : g 1 = f 1 := hag 1 (by omega)
    simp [statusError, hb1]
  · intro h3
    have hn : expansion_frame_get_encoded_size f = 5 := hc.2.2.1 h3
    have hb1 : g 1 = f 1 := hag 1 (by omega)
    have hb2 : g 2 = f 2 := hag 2 (by omega)
    have hb3 : g 3 = f 3 := hag 3 (by omega)
    have hb4 : g 4 = f 4 := hag 4 (by omega)
    simp [baudValue, hb1, hb2, hb3, hb4]
  · intro h4
    have hn : expansion_frame_get_encoded_size f = 2 := hc.2.2.2.1 h4
    have hb1 : g 1 = f 1 := hag 1 (by omega)
    simp [controlCommand, hb1]
  · intro h5
    have hn : expansion_frame_get_encoded_size f = 2 + dataLen f := hc.2.2.2.2.1 h5
    have hb1 : g 1 = f 1 := hag 1 (by omega)
    refine ⟨by simp [dataLen, hb1], fun i hi => ?_⟩
    have hb : g (2 + i) = f (2 + i) := hag (2 + i) (by omega)
    rw [hb]

/-- C1: encoding any well-formed frame of the five variants through the
in-memory sink and decoding the resulting bytes through the in-memory
source succeeds and reproduces an identical frame value (same tag and same
semantically meaningful content fields), for any initial contents of the
receiving frame buffer. -/
theorem encode_decode_roundtrip (f g0 : Buf) (hwf : WellFormed f) :
    (expansion_frame_encode listSink f []).ok = true ∧
    (expansion_frame_decode listSource g0
        (expansion_frame_encode listSink f []).state).ok = true ∧
    frameEquiv f (expansion_frame_decode listSource g0
        (expansion_frame_encode listSink f []).state).buf := by
  have hn1 := (encoded_size_bounds f hwf).1
  have hn66 := (encoded_size_bounds f hwf).2
  have hfs66 : frameSize = 66 := rfl
  have hnz : expansion_frame_get_encoded_size f ≠ 0 := by omega
  have hlen : (encBytes f (expansion_frame_get_encoded_size f)).length =
      expansion_frame_get_encoded_size f := readBytes_length f _ 0
  have hok : (expansion_frame_encode listSink f []).ok = true := by
    simp [expansion_frame_encode, hnz, listSink, hlen]
  have hst : (expansion_frame_encode listSink f []).state =
      encBytes f (expansion_frame_get_encoded_size f) := by
    simp [expansion_frame_encode, hnz, listSink]
  rw [hst]
  have hdrv := decodeLoopF_drive f hwf 258 g0 0 (by omega)
    (fun i hi => absurd hi (by omega)) (by omega)
  rw [Nat.sub_zero] at hdrv
  have hdec : expansion_frame_decode listSource g0
      (encBytes f (expansion_frame_get_encoded_size f)) =
      decodeLoopF listSource 258 g0 0
        (readBytes f 0 (expansion_frame_get_encoded_size f)) := rfl
  rw [hdec]
  exact ⟨hok, hdrv.1, frameEquiv_of_agree f _ hwf hdrv.2⟩

/-- C1 witness: a Data frame of declared length 2 with payload bytes 10
and 11, decoded into an all-zero frame buffer. -/
theorem encode_decode_roundtrip_witness :
    (expansion_frame_encode listSink
        (fun i => if i = 0 then 5 else if i = 1 then 2 else if i = 2 then 10
          else if i = 3 then 11 else 0) []).ok = true ∧
    (expansion_frame_decode listSource (fun _ => 0)
        (expansion_frame_encode listSink
          (fun i => if i = 0 then 5 else if i = 1 then 2 else if i = 2 then 10
            else if i = 3 then 11 else 0) []).state).ok = true ∧
    frameEquiv
      (fun i => if i = 0 then 5 else if i = 1 then 2 else if i = 2 then 10
        else if i = 3 then 11 else 0)
      (expansion_frame_decode listSource (fun _ => 0)
        (expansion_frame_encode listSink
          (fun i => if i = 0 then 5 else if i = 1 then 2 else if i = 2 then 10
            else if i = 3 then 11 else 0) []).state).buf :=
  encode_decode_roundtrip
    (fun i => if i = 0 then 5 else if i = 1 then 2 else if i = 2 then 10
      else if i = 3 then 11 else 0)
    (fun _ => 0)
    (by
      refine ⟨fun i hi => ?_, by decide, by decide⟩
      by_cases h0 : i = 0
      · simp [h0]
      by_cases h1 : i = 1
      · simp [h0, h1]
      by_cases h2 : i = 2
      · simp [h0, h1, h2]
      by_cases h3 : i = 3
      · simp [h0, h1, h2, h3]
      simp [h0, h1, h2, h3])

end ExpansionProtocol
